import Mathlib

/-!
Verification development for the virtualized data-table viewer
(react-data-table-custom).

The definitions below are a shallow embedding of the TypeScript source:

* src/components/VirtualDataTable.tsx — value classification
  (isEmptyValue, parseNumericValue), the row comparator (compareValues),
  row sorting (sortRows), the debounced search filter (debouncedSearch),
  the sort-toggle handler (handleSort), and the component state
  (headers / originalRows / rows / sortConfig).
* src/context/AuthContext.tsx — the credential check (login).

Modelling conventions:

* JavaScript numbers are modelled as exact rationals; NaN is modelled as
  Option.none (the claims under study concern comparison structure and
  parsing, not float rounding).
* String.prototype.trim and toLowerCase are modelled over the character
  list of the string (jsTrimList, toLowerStr); toLowerCase is the ASCII
  case fold, which is all the sentinel strings and claims need.
* localeCompare(b, undefined, \x7bnumeric: true, sensitivity: 'base'\x7d) is
  modelled as a case-folded natural comparison: runs of digits compare by
  value, other characters by code point (localeCompareNumericBase).
* Array.prototype.sort with a comparator cmp is a stable sort; it is
  modelled as a stable insertion sort ordered by cmp(a, b) <= 0
  (jsStableSort), which produces the same list for every consistent
  comparator.
* a[i] on a too-short array is undefined; every use of an out-of-range
  cell in the source flows into isEmptyValue or toLowerCase-with-default,
  where undefined behaves exactly like "", so cell access is modelled as
  List.getD with default "".
-/

/-- The ECMAScript WhiteSpace and LineTerminator characters recognised by
String.prototype.trim (the Unicode Zs members that appear in practice). -/
def isJsSpace (c : Char) : Bool :=
  c = ' ' || c = '\t' || c = '\n' || c = '\r' || c = '\x0b' || c = '\x0c' ||
    c = '\u00a0' || c = '\ufeff' || c = '\u2028' || c = '\u2029'

/-- Model of String.prototype.trim on the character list: drop leading and
trailing JS whitespace. -/
def jsTrimList (cs : List Char) : List Char :=
  ((cs.dropWhile isJsSpace).reverse.dropWhile isJsSpace).reverse

/-- ASCII case fold, the model of String.prototype.toLowerCase. -/
def jsToLower (c : Char) : Char :=
  if 'A' ≤ c && c ≤ 'Z' then Char.ofNat (c.toNat + 32) else c

/-- String.prototype.toLowerCase. -/
def toLowerStr (s : String) : String :=
  ⟨s.data.map jsToLower⟩

/-- String.prototype.includes: the needle occurs somewhere in the hay. -/
def strIncludes (hay needle : String) : Bool :=
  hay.data.tails.any (fun t => needle.data.isPrefixOf t)

/-- VirtualDataTable.tsx, isEmptyValue: !value || value === 'undefined' ||
value === 'null' || value === 'Not Provided' || value.trim() === '' ||
value === '-'. (!value on a string is exactly value === "".) -/
def isEmptyValue (value : String) : Bool :=
  value == "" || value == "undefined" || value == "null" ||
    value == "Not Provided" || decide (jsTrimList value.data = []) || value == "-"

/-- The character class kept by value.replace(/[^0-9.-]+/g, ''). -/
def isNumChar (c : Char) : Bool :=
  c.isDigit || c = '.' || c = '-'

/-- value.replace(/[^0-9.-]+/g, '') on the character list. -/
def stripNumeric (value : String) : List Char :=
  value.data.filter isNumChar

/-- Value of a digit run, most significant first. -/
def digitsToNat (ds : List Char) : ℕ :=
  ds.foldl (fun n c => 10 * n + (c.toNat - 48)) 0

/-- The rational value of a decimal numeral with integer digits intDs and
fraction digits fracDs. Built with mkRat rather than with + and / because
Batteries marks the ℚ field operations irreducible, which would make the
development impossible to evaluate on concrete inputs;
decimalValue_eq_add_div proves this is the usual intPart + fracPart/10^k. -/
def decimalValue (intDs fracDs : List Char) : ℚ :=
  mkRat (digitsToNat (intDs ++ fracDs) : ℤ) (10 ^ fracDs.length)

/-- Rational subtraction written out by cross-multiplication, again to
stay kernel-computable; ratSub_eq proves ratSub a b = a - b. -/
def ratSub (a b : ℚ) : ℚ :=
  Rat.divInt (a.num * (b.den : ℤ) - b.num * (a.den : ℤ)) ((a.den : ℤ) * (b.den : ℤ))

/-- Optional leading sign, as consumed by parseFloat: returns (isNegative,
remaining characters). -/
def parseSign : List Char → Bool × List Char
  | [] => (false, [])
  | c :: rest =>
    if c = '-' then (true, rest)
    else if c = '+' then (false, rest)
    else (false, c :: rest)

/-- Fractional part: a leading '.' (consumed) followed by a digit run.
Returns (fraction digits, remaining characters). -/
def fracOf : List Char → List Char × List Char
  | [] => ([], [])
  | c :: rest =>
    if c = '.' then (rest.takeWhile Char.isDigit, rest.dropWhile Char.isDigit)
    else ([], c :: rest)

/-- Model of Number.parseFloat restricted to its use here: the input has
already been stripped to characters from [0-9.-], so no leading
whitespace, exponent part or Infinity can occur. Parses the longest
numeric prefix (optional sign, integer digits, optional '.' and fraction
digits); none models NaN (no digits found). Returns the value and the
unconsumed suffix. -/
def parseFloatCore (cs : List Char) : Option (ℚ × List Char) :=
  let sr := parseSign cs
  let intPart := sr.2.takeWhile Char.isDigit
  let afterInt := sr.2.dropWhile Char.isDigit
  let fr := fracOf afterInt
  if intPart.isEmpty && fr.1.isEmpty then none
  else
    let mag : ℚ := decimalValue intPart fr.1
    some (if sr.1 then -mag else mag, fr.2)

/-- Number.parseFloat: just the parsed value. -/
def parseFloatQ (cs : List Char) : Option ℚ :=
  (parseFloatCore cs).map Prod.fst

/-- VirtualDataTable.tsx, parseNumericValue: strip every character outside
[0-9.-], then parseFloat; none models NaN. -/
def parseNumericValue (value : String) : Option ℚ :=
  parseFloatQ (stripNumeric value)

/-- The stripped remainder begins with a number: after an optional sign,
either a digit, or a '.' immediately followed by a digit. parseFloat
returns NaN exactly when this fails. -/
def beginsWithNumber (cs : List Char) : Bool :=
  match (parseSign cs).2 with
  | [] => false
  | c :: rest =>
    if c.isDigit then true
    else if c = '.' then
      match rest with
      | [] => false
      | d :: _ => d.isDigit
    else false

/-- The whole character list is one valid decimal numeral: parseFloat
succeeds and consumes every character. Used to state what a "valid
number" is when checking the spec's description of parseNumeric. -/
def isValidNumberLit (cs : List Char) : Bool :=
  match parseFloatCore cs with
  | some p => p.2.isEmpty
  | none => false

/-- A chunk of a string under numeric collation: a run of digits taken by
value, or a single non-digit character. -/
inductive NatChunk where
  | num : ℕ → NatChunk
  | ch : Char → NatChunk
deriving DecidableEq

/-- One-pass chunking worker: cur carries the value of the digit run read
so far (none when not inside a digit run). -/
def chunksGo : List Char → Option ℕ → List NatChunk
  | [], some n => [NatChunk.num n]
  | [], none => []
  | c :: rest, cur =>
    if c.isDigit then chunksGo rest (some (10 * cur.getD 0 + (c.toNat - 48)))
    else
      match cur with
      | some n => NatChunk.num n :: NatChunk.ch c :: chunksGo rest none
      | none => NatChunk.ch c :: chunksGo rest none

/-- Split a character list into numeric-collation chunks: maximal digit
runs become num chunks (by value), every other character a ch chunk. -/
def chunksOf (cs : List Char) : List NatChunk :=
  chunksGo cs none

/-- Three-way comparison on naturals, -1 / 0 / 1. -/
def cmpNat3 (m n : ℕ) : ℤ :=
  if m < n then -1 else if n < m then 1 else 0

/-- Three-way comparison of two chunks: digit runs by value, characters by
code point, digit runs before characters. -/
def chunkCmp : NatChunk → NatChunk → ℤ
  | NatChunk.num m, NatChunk.num n => cmpNat3 m n
  | NatChunk.num _, NatChunk.ch _ => -1
  | NatChunk.ch _, NatChunk.num _ => 1
  | NatChunk.ch a, NatChunk.ch b => cmpNat3 a.toNat b.toNat

/-- Lexicographic three-way comparison of chunk lists. -/
def lexChunks : List NatChunk → List NatChunk → ℤ
  | [], [] => 0
  | [], _ :: _ => -1
  | _ :: _, [] => 1
  | x :: xs, y :: ys =>
    let c := chunkCmp x y
    if c = 0 then lexChunks xs ys else c

/-- Model of a.localeCompare(b, undefined, \x7bnumeric: true,
sensitivity: 'base'\x7d) for the ASCII data this table holds: case-fold
both strings, split into digit runs and single characters, compare
lexicographically with digit runs compared by numeric value. -/
def localeCompareNumericBase (a b : String) : ℤ :=
  lexChunks (chunksOf (toLowerStr a).data) (chunksOf (toLowerStr b).data)

/-- VirtualDataTable.tsx, SortDirection: "asc" | "desc". -/
inductive SortDirection where
  | asc
  | desc
deriving DecidableEq

/-- VirtualDataTable.tsx, SortConfig (the non-null part): \x7b column:
number; direction: SortDirection \x7d. -/
structure SortConfig where
  column : ℕ
  direction : SortDirection
deriving DecidableEq

/-- VirtualDataTable.tsx, compareValues. The returned rational models the
JS number returned to Array.prototype.sort; NaN from parseNumericValue is
the none case of the match. -/
def compareValues (aValue bValue : String) (columnType : String) (direction : SortDirection) : ℚ :=
  let aEmpty := isEmptyValue aValue
  let bEmpty := isEmptyValue bValue
  if aEmpty && bEmpty then 0
  else if aEmpty then 1
  else if bEmpty then -1
  else if columnType = "number" then
    match parseNumericValue aValue, parseNumericValue bValue with
    | none, none => 0
    | none, some _ => 1
    | some _, none => -1
    | some aNum, some bNum =>
      let comparison := ratSub aNum bNum
      if direction = SortDirection.asc then comparison else -comparison
  else
    let comparison : ℚ := (localeCompareNumericBase aValue bValue : ℚ)
    if direction = SortDirection.asc then comparison else -comparison

/-- Stable insertion of a into an already-ordered list: a goes before the
first element b with le a b, after everything it ties with. -/
def jsOrderedInsert (le : α → α → Bool) (a : α) : List α → List α
  | [] => [a]
  | b :: l => if le a b then a :: b :: l else b :: jsOrderedInsert le a l

/-- Model of Array.prototype.sort with comparator cmp: a stable sort with
le a b := cmp(a, b) <= 0. For every consistent comparator (all the
comparators this component builds are) this is the list the engine's
stable sort produces. -/
def jsStableSort (le : α → α → Bool) : List α → List α
  | [] => []
  | a :: l => jsOrderedInsert le a (jsStableSort le l)

/-- VirtualDataTable.tsx, COLUMN_CONFIG: the per-column-name type field;
none for a column name outside the configuration. -/
def columnConfigType (name : String) : Option String :=
  if name = "Domain" then some "string"
  else if name = "Niche1" then some "string"
  else if name = "Niche2" then some "string"
  else if name = "Traffic" then some "number"
  else if name = "DR" then some "number"
  else if name = "DA" then some "number"
  else if name = "Language" then some "string"
  else if name = "Price" then some "number"
  else if name = "Spam Score" then some "number"
  else none

/-- VirtualDataTable.tsx, sortRows: look the column type up from the
header (defaulting to 'string'), copy the array, and sort it with
compareValues on the chosen column. -/
def sortRows (headers : List String) (rowsToSort : List (List String)) (columnIndex : ℕ) (direction : SortDirection) : List (List String) :=
  let columnName := headers.getD columnIndex ""
  let columnType := (columnConfigType columnName).getD "string"
  jsStableSort
    (fun a b =>
      decide (compareValues (a.getD columnIndex "") (b.getD columnIndex "") columnType direction ≤ 0))
    rowsToSort

/-- VirtualDataTable.tsx, body of the debounced search callback: an empty
trimmed query restores originalRows, otherwise keep the rows whose
column-0 cell, lower-cased, contains the lower-cased query. -/
def debouncedSearch (originalRows : List (List String)) (query : String) : List (List String) :=
  if jsTrimList query.data = [] then originalRows
  else
    let searchLower := toLowerStr query
    originalRows.filter (fun row => strIncludes (toLowerStr (row.getD 0 "")) searchLower)

/-- The component state the claims touch: headers, the immutable data
rows, the working row array, and the active sort spec. -/
structure TableState where
  headers : List String
  originalRows : List (List String)
  rows : List (List String)
  sortConfig : Option SortConfig
deriving DecidableEq

/-- State directly after the component receives a grid: headers = data[0],
originalRows = rows = data.slice(1), no active sort. -/
def initTable (data : List (List String)) : TableState :=
  { headers := data.getD 0 []
    originalRows := data.drop 1
    rows := data.drop 1
    sortConfig := none }

/-- VirtualDataTable.tsx, handleSort: compute the new direction from the
previous sort config (same column currently ascending flips to
descending, every other case starts ascending), sort the current working
rows, and store the new config. -/
def handleSort (st : TableState) (columnIndex : ℕ) : TableState :=
  let newDirection : SortDirection :=
    match st.sortConfig with
    | some prevSort =>
      if prevSort.column = columnIndex && prevSort.direction = SortDirection.asc then
        SortDirection.desc
      else SortDirection.asc
    | none => SortDirection.asc
  { st with
    rows := sortRows st.headers st.rows columnIndex newDirection
    sortConfig := some ⟨columnIndex, newDirection⟩ }

/-- The debounced search callback firing with the settled query: it
rebuilds rows from originalRows alone (the active sortConfig is not
consulted). -/
def applyDebouncedSearch (st : TableState) (query : String) : TableState :=
  { st with rows := debouncedSearch st.originalRows query }

/-- AuthContext.tsx, AuthCredentials. -/
structure AuthCredentials where
  username : String
  password : String

/-- AuthContext.tsx, login: the returned pair is (resolved value, the
isAuthenticated state after the call, given the state before it).
setIsAuthenticated(true) runs exactly on the demo/demo branch. -/
def login (isAuthenticated : Bool) (credentials : AuthCredentials) : Bool × Bool :=
  if credentials.username = "demo" && credentials.password = "demo" then (true, true)
  else (false, isAuthenticated)

/-- Modelled from the spec: the Windowed Renderer algorithm itself lives
in the external @tanstack/react-virtual library — src only configures it
(count = rows.length, estimateSize 40/48, overscan 10). Spec 4.5 / 9:
given total count, estimated item size, overscan and scroll offset,
return the visible index range. First rendered index: the row containing
the top of the viewport, minus overscan (floored at 0 by ℕ subtraction). -/
def windowFirst (rowHeightPx overscan scrollPx : ℕ) : ℕ :=
  scrollPx / rowHeightPx - overscan

/-- Modelled from the spec: one past the last rendered index — the row
containing the bottom of the viewport, plus overscan, clamped to count. -/
def windowStop (count rowHeightPx overscan viewportPx scrollPx : ℕ) : ℕ :=
  min ((scrollPx + viewportPx) / rowHeightPx + overscan + 1) count

/-- Modelled from the spec: the contiguous list of rendered row indices. -/
def renderedIndices (count rowHeightPx overscan viewportPx scrollPx : ℕ) : List ℕ :=
  List.range' (windowFirst rowHeightPx overscan scrollPx)
    (windowStop count rowHeightPx overscan viewportPx scrollPx -
      windowFirst rowHeightPx overscan scrollPx)

/-- Modelled from the spec: how many rows intersect the viewport at this
scroll offset (the rows from the one containing the top edge through the
one containing the bottom edge). -/
def visibleCount (rowHeightPx viewportPx scrollPx : ℕ) : ℕ :=
  (scrollPx + viewportPx) / rowHeightPx - scrollPx / rowHeightPx + 1

/-- Rank of a cell in a numeric column's sort order tiers: parseable
values (0) before non-empty unparseable cells (1) before empty cells (2).
Proof-side characterisation of compareValues, not part of the source. -/
def numRank (s : String) : ℕ :=
  if isEmptyValue s then 2 else if parseNumericValue s = none then 1 else 0

/-- The parsed value of a cell (0 for unparseable cells; only consulted at
rank 0). -/
def numVal (s : String) : ℚ :=
  (parseNumericValue s).getD 0

/-- Direction-relative order on values. -/
def dirLe (direction : SortDirection) (x y : ℚ) : Prop :=
  if direction = SortDirection.asc then x ≤ y else y ≤ x

/-! Basic lemmas about the kernel-computable arithmetic stand-ins. -/

theorem ratSub_eq (a b : ℚ) : ratSub a b = a - b := by
  have ha : ((a.den : ℚ)) ≠ 0 := by exact_mod_cast a.den_ne_zero
  have hb : ((b.den : ℚ)) ≠ 0 := by exact_mod_cast b.den_ne_zero
  rw [ratSub, Rat.divInt_eq_div]
  push_cast
  conv_rhs => rw [← Rat.num_div_den a, ← Rat.num_div_den b]
  rw [div_sub_div _ _ ha hb]
  ring_nf

theorem digitsToNat_go (b : List Char) (n : ℕ) :
    b.foldl (fun n c => 10 * n + (c.toNat - 48)) n = n * 10 ^ b.length + digitsToNat b := by
  induction b generalizing n with
  | nil => simp [digitsToNat]
  | cons c b ih =>
    simp only [List.foldl_cons, List.length_cons, digitsToNat]
    rw [ih, ih (10 * 0 + (c.toNat - 48))]
    ring

theorem digitsToNat_append (a b : List Char) :
    digitsToNat (a ++ b) = digitsToNat a * 10 ^ b.length + digitsToNat b := by
  unfold digitsToNat
  rw [List.foldl_append]
  exact digitsToNat_go b _

theorem decimalValue_eq_add_div (i f : List Char) :
    decimalValue i f = (digitsToNat i : ℚ) + (digitsToNat f : ℚ) / 10 ^ f.length := by
  have h10 : ((10 : ℚ) ^ f.length) ≠ 0 := by positivity
  rw [decimalValue, Rat.mkRat_eq_div, digitsToNat_append]
  push_cast
  field_simp

/-! Lemmas about the JS trim model. -/

theorem forall_mem_dropWhile {p : α → Bool} {l : List α} :
    (∀ a ∈ l.dropWhile p, p a = true) ↔ (∀ a ∈ l, p a = true) := by
  induction l with
  | nil => simp
  | cons c l ih =>
    by_cases hc : p c = true
    · simp [List.dropWhile_cons, hc, ih]
    · simp [List.dropWhile_cons, hc]

theorem jsTrimList_eq_nil_iff (cs : List Char) :
    jsTrimList cs = [] ↔ ∀ c ∈ cs, isJsSpace c = true := by
  rw [jsTrimList, List.reverse_eq_nil_iff, List.dropWhile_eq_nil_iff]
  constructor
  · intro h
    exact forall_mem_dropWhile.mp (fun a ha => h a (List.mem_reverse.mpr ha))
  · intro h a ha
    exact h a ((List.dropWhile_sublist isJsSpace).subset (List.mem_reverse.mp ha))

/-! parseFloat returns NaN exactly when the input has no numeric prefix. -/

theorem parseFloatQ_eq_none_iff (cs : List Char) :
    parseFloatQ cs = none ↔ beginsWithNumber cs = false := by
  rw [parseFloatQ, parseFloatCore, beginsWithNumber]
  rcases h2 : (parseSign cs).2 with _ | ⟨c, rest⟩
  · simp [fracOf]
  · by_cases hc : c.isDigit
    · simp [List.takeWhile_cons, hc]
    · by_cases hdot : c = '.'
      · subst hdot
        rcases rest with _ | ⟨d, rest⟩
        · simp [List.takeWhile_cons, List.dropWhile_cons, hc, fracOf]
        · by_cases hd : d.isDigit
          · simp [List.takeWhile_cons, List.dropWhile_cons, hc, fracOf, hd]
          · simp [List.takeWhile_cons, List.dropWhile_cons, hc, fracOf, hd]
      · simp [List.takeWhile_cons, List.dropWhile_cons, hc, fracOf, hdot]

/-! The natural-comparison model only returns -1, 0 or 1. -/

theorem cmpNat3_mem (m n : ℕ) : cmpNat3 m n = -1 ∨ cmpNat3 m n = 0 ∨ cmpNat3 m n = 1 := by
  unfold cmpNat3
  split_ifs <;> simp

theorem chunkCmp_mem (x y : NatChunk) : chunkCmp x y = -1 ∨ chunkCmp x y = 0 ∨ chunkCmp x y = 1 := by
  cases x <;> cases y <;> simp [chunkCmp] <;> apply cmpNat3_mem

theorem lexChunks_mem (xs ys : List NatChunk) :
    lexChunks xs ys = -1 ∨ lexChunks xs ys = 0 ∨ lexChunks xs ys = 1 := by
  induction xs generalizing ys with
  | nil => cases ys <;> simp [lexChunks]
  | cons x xs ih =>
    cases ys with
    | nil => simp [lexChunks]
    | cons y ys =>
      rw [lexChunks]
      by_cases h : chunkCmp x y = 0
      · simpa [h] using ih ys
      · simpa [h] using chunkCmp_mem x y

theorem localeCompareNumericBase_mem (a b : String) :
    localeCompareNumericBase a b = -1 ∨ localeCompareNumericBase a b = 0 ∨
      localeCompareNumericBase a b = 1 :=
  lexChunks_mem _ _

/-! The stable-sort model: permutation and sortedness. -/

theorem jsOrderedInsert_perm (le : α → α → Bool) (a : α) (l : List α) :
    (jsOrderedInsert le a l).Perm (a :: l) := by
  induction l with
  | nil => exact List.Perm.refl _
  | cons b l ih =>
    rw [jsOrderedInsert]
    by_cases h : le a b
    · simp [h]
    · simp only [h]
      rw [if_neg (by simp [h])]
      exact (ih.cons b).trans (List.Perm.swap a b l)

theorem jsStableSort_perm (le : α → α → Bool) (l : List α) :
    (jsStableSort le l).Perm l := by
  induction l with
  | nil => exact List.Perm.refl _
  | cons a l ih =>
    rw [jsStableSort]
    exact (jsOrderedInsert_perm le a (jsStableSort le l)).trans (ih.cons a)

theorem mem_jsOrderedInsert (le : α → α → Bool) (a x : α) (l : List α) :
    x ∈ jsOrderedInsert le a l ↔ x = a ∨ x ∈ l := by
  rw [(jsOrderedInsert_perm le a l).mem_iff]
  simp

theorem pairwise_jsOrderedInsert (le : α → α → Bool)
    (htot : ∀ x y, le x y = true ∨ le y x = true)
    (htrans : ∀ x y z, le x y = true → le y z = true → le x z = true)
    (a : α) (l : List α) (h : l.Pairwise (fun x y => le x y = true)) :
    (jsOrderedInsert le a l).Pairwise (fun x y => le x y = true) := by
  induction l with
  | nil => simp [jsOrderedInsert]
  | cons b l ih =>
    rw [jsOrderedInsert]
    by_cases hab : le a b = true
    · rw [if_pos hab]
      refine List.Pairwise.cons ?_ h
      intro x hx
      rcases List.mem_cons.mp hx with hx | hx
      · subst hx; exact hab
      · exact htrans a b x hab (List.rel_of_pairwise_cons h hx)
    · rw [if_neg (by simp [hab])]
      have hba : le b a = true := (htot a b).resolve_left hab
      refine List.Pairwise.cons ?_ (ih h.of_cons)
      intro x hx
      rcases (mem_jsOrderedInsert le a x l).mp hx with hx | hx
      · subst hx; exact hba
      · exact List.rel_of_pairwise_cons h hx

theorem jsStableSort_pairwise (le : α → α → Bool)
    (htot : ∀ x y, le x y = true ∨ le y x = true)
    (htrans : ∀ x y z, le x y = true → le y z = true → le x z = true)
    (l : List α) :
    (jsStableSort le l).Pairwise (fun x y => le x y = true) := by
  induction l with
  | nil => simp [jsStableSort]
  | cons a l ih =>
    rw [jsStableSort]
    exact pairwise_jsOrderedInsert le htot htrans a _ ih

/-! Characterisation of the numeric-column comparator: it orders cells by
(rank, direction-relative value): parseable values first, then non-empty
unparseable cells, then empty cells. -/

theorem compareValues_number_le_iff (a b : String) (d : SortDirection) :
    compareValues a b "number" d ≤ 0 ↔
      (numRank a < numRank b ∨
        (numRank a = numRank b ∧ (numRank a = 0 → dirLe d (numVal a) (numVal b)))) := by
  unfold compareValues numRank numVal dirLe
  by_cases ha : isEmptyValue a = true
  · by_cases hb : isEmptyValue b = true
    · simp [ha, hb]
    · rcases hpb : parseNumericValue b with _ | y
      · simp [ha, hb, hpb]
      · simp [ha, hb, hpb]
  · by_cases hb : isEmptyValue b = true
    · rcases hpa : parseNumericValue a with _ | x
      · simp [ha, hb, hpa]
      · simp [ha, hb, hpa]
    · rcases hpa : parseNumericValue a with _ | x
      · rcases hpb : parseNumericValue b with _ | y
        · simp [ha, hb, hpa, hpb]
        · simp [ha, hb, hpa, hpb]
      · rcases hpb : parseNumericValue b with _ | y
        · simp [ha, hb, hpa, hpb]
        · cases d
          · simp [ha, hb, hpa, hpb, ratSub_eq, sub_nonpos]
          · simp [ha, hb, hpa, hpb, ratSub_eq, neg_sub, sub_nonpos]

theorem dirLe_total (d : SortDirection) (x y : ℚ) : dirLe d x y ∨ dirLe d y x := by
  unfold dirLe
  split_ifs <;> exact le_total _ _

theorem dirLe_trans (d : SortDirection) (x y z : ℚ) :
    dirLe d x y → dirLe d y z → dirLe d x z := by
  unfold dirLe
  split_ifs <;> intro h1 h2
  · exact le_trans h1 h2
  · exact le_trans h2 h1

theorem compareValues_number_total (a b : String) (d : SortDirection) :
    compareValues a b "number" d ≤ 0 ∨ compareValues b a "number" d ≤ 0 := by
  rw [compareValues_number_le_iff, compareValues_number_le_iff]
  rcases lt_trichotomy (numRank a) (numRank b) with h | h | h
  · exact Or.inl (Or.inl h)
  · rcases dirLe_total d (numVal a) (numVal b) with hv | hv
    · exact Or.inl (Or.inr ⟨h, fun _ => hv⟩)
    · exact Or.inr (Or.inr ⟨h.symm, fun _ => hv⟩)
  · exact Or.inr (Or.inl h)

theorem compareValues_number_trans (a b c : String) (d : SortDirection)
    (h1 : compareValues a b "number" d ≤ 0) (h2 : compareValues b c "number" d ≤ 0) :
    compareValues a c "number" d ≤ 0 := by
  rw [compareValues_number_le_iff] at h1 h2 ⊢
  rcases h1 with h1 | ⟨h1e, h1v⟩
  · rcases h2 with h2 | ⟨h2e, h2v⟩
    · exact Or.inl (h1.trans h2)
    · exact Or.inl (by omega)
  · rcases h2 with h2 | ⟨h2e, h2v⟩
    · exact Or.inl (by omega)
    · refine Or.inr ⟨h1e.trans h2e, fun h0 => ?_⟩
      exact dirLe_trans d _ _ _ (h1v h0) (h2v (by omega))

/-! Lifting the comparator facts to sortRows on a numeric column. -/

theorem sortRows_number_eq (headers : List String) (rows : List (List String)) (c : ℕ)
    (d : SortDirection)
    (hnum : (columnConfigType (headers.getD c "")).getD "string" = "number") :
    sortRows headers rows c d =
      jsStableSort
        (fun a b => decide (compareValues (a.getD c "") (b.getD c "") "number" d ≤ 0)) rows := by
  simp only [sortRows, hnum]

theorem sortRows_perm (headers : List String) (rows : List (List String)) (c : ℕ)
    (d : SortDirection) : (sortRows headers rows c d).Perm rows := by
  simp only [sortRows]
  exact jsStableSort_perm _ rows

theorem sortRows_number_pairwise (headers : List String) (rows : List (List String)) (c : ℕ)
    (d : SortDirection)
    (hnum : (columnConfigType (headers.getD c "")).getD "string" = "number") :
    (sortRows headers rows c d).Pairwise
      (fun a b => compareValues (a.getD c "") (b.getD c "") "number" d ≤ 0) := by
  have h := jsStableSort_pairwise
    (fun a b : List String => decide (compareValues (a.getD c "") (b.getD c "") "number" d ≤ 0))
    (fun x y => by
      rcases compareValues_number_total (x.getD c "") (y.getD c "") d with h | h
      · exact Or.inl (decide_eq_true h)
      · exact Or.inr (decide_eq_true h))
    (fun x y z hxy hyz =>
      decide_eq_true
        (compareValues_number_trans _ _ _ d (of_decide_eq_true hxy) (of_decide_eq_true hyz)))
    rows
  rw [sortRows_number_eq headers rows c d hnum]
  exact h.imp (fun hab => of_decide_eq_true hab)

theorem parse_eq_some_numVal {s : String} (h : numRank s = 0) :
    parseNumericValue s = some (numVal s) := by
  unfold numRank at h
  split_ifs at h with h1 h2
  rcases hp : parseNumericValue s with _ | x
  · exact absurd hp h2
  · simp [numVal, hp]

theorem sortRows_number_empties_last (headers : List String) (rows : List (List String)) (c : ℕ)
    (d : SortDirection)
    (hnum : (columnConfigType (headers.getD c "")).getD "string" = "number") :
    (sortRows headers rows c d).Pairwise
      (fun a b => 1 ≤ numRank (a.getD c "") → 1 ≤ numRank (b.getD c "")) := by
  have h := sortRows_number_pairwise headers rows c d hnum
  refine h.imp (fun hab => ?_)
  rw [compareValues_number_le_iff] at hab
  intro h1
  rcases hab with hab | ⟨he, _⟩ <;> omega

theorem sortRows_number_map_parse_reverse (headers : List String) (rows : List (List String))
    (c : ℕ)
    (hnum : (columnConfigType (headers.getD c "")).getD "string" = "number")
    (hg : ∀ r ∈ rows, numRank (r.getD c "") = 0) :
    (sortRows headers rows c SortDirection.desc).map (fun r => parseNumericValue (r.getD c "")) =
      ((sortRows headers rows c SortDirection.asc).map
          (fun r => parseNumericValue (r.getD c ""))).reverse := by
  set f : List String → ℚ := fun r => numVal (r.getD c "") with hf
  set A := sortRows headers rows c SortDirection.asc with hA
  set D := sortRows headers rows c SortDirection.desc with hD
  have hpermA : A.Perm rows := sortRows_perm headers rows c SortDirection.asc
  have hpermD : D.Perm rows := sortRows_perm headers rows c SortDirection.desc
  have hgA : ∀ r ∈ A, numRank (r.getD c "") = 0 := fun r hr => hg r (hpermA.mem_iff.mp hr)
  have hgD : ∀ r ∈ D, numRank (r.getD c "") = 0 := fun r hr => hg r (hpermD.mem_iff.mp hr)
  have valA : A.Pairwise (fun a b => f a ≤ f b) := by
    refine (sortRows_number_pairwise headers rows c SortDirection.asc hnum).imp_of_mem ?_
    intro a b ha hb hab
    rw [compareValues_number_le_iff] at hab
    rcases hab with hab | ⟨_, hv⟩
    · rw [hgA a ha, hgA b hb] at hab
      omega
    · have := hv (hgA a ha)
      simpa [hf, dirLe] using this
  have valD : D.Pairwise (fun a b => f b ≤ f a) := by
    refine (sortRows_number_pairwise headers rows c SortDirection.desc hnum).imp_of_mem ?_
    intro a b ha hb hab
    rw [compareValues_number_le_iff] at hab
    rcases hab with hab | ⟨_, hv⟩
    · rw [hgD a ha, hgD b hb] at hab
      omega
    · have := hv (hgD a ha)
      simpa [hf, dirLe] using this
  have mapA : (A.map f).Pairwise (fun x y : ℚ => x ≤ y) := List.pairwise_map.mpr valA
  have mapD : (D.map f).Pairwise (fun x y : ℚ => y ≤ x) := List.pairwise_map.mpr valD
  have revA : ((A.map f).reverse).Pairwise (fun x y : ℚ => y ≤ x) :=
    List.pairwise_reverse.mpr mapA
  have hperm : (D.map f).Perm ((A.map f).reverse) :=
    ((hpermD.map f).trans (hpermA.map f).symm).trans ((A.map f).reverse_perm).symm
  letI : IsAntisymm ℚ (fun x y : ℚ => y ≤ x) := ⟨fun a b h1 h2 => le_antisymm h2 h1⟩
  have eqmap : D.map f = (A.map f).reverse := List.eq_of_perm_of_sorted hperm mapD revA
  have congrD : D.map (fun r => parseNumericValue (r.getD c "")) = (D.map f).map some := by
    rw [List.map_map]
    exact List.map_congr_left (fun r hr => parse_eq_some_numVal (hgD r hr))
  have congrA : A.map (fun r => parseNumericValue (r.getD c "")) = (A.map f).map some := by
    rw [List.map_map]
    exact List.map_congr_left (fun r hr => parse_eq_some_numVal (hgA r hr))
  rw [congrD, congrA, eqmap, List.map_reverse]

/-! Claims. -/

/-- Claim C1, counterexample. The spec's scenario says sorting the grid
[["Domain","Traffic"],["b.com","50"],["a.com","-"],["c.com","abc"]] by
Traffic ascending keeps a.com(-) before c.com(abc); the code does not:
compareValues puts empty cells after non-empty unparseable cells, so the
result is not the claimed order b.com, a.com, c.com. -/
theorem C1_counterexample :
    sortRows ["Domain", "Traffic"] [["b.com", "50"], ["a.com", "-"], ["c.com", "abc"]] 1
        SortDirection.asc ≠
      [["b.com", "50"], ["a.com", "-"], ["c.com", "abc"]] := by
  decide

/-- Claim C1, amended: sorting that grid by Traffic ascending yields
b.com(50), c.com(abc), a.com(-): the single parseable value first, then
the unparseable non-empty cell, then the empty cell — empty cells sort
after unparseable ones instead of keeping their original relative
order. -/
theorem C1_amended :
    sortRows ["Domain", "Traffic"] [["b.com", "50"], ["a.com", "-"], ["c.com", "abc"]] 1
        SortDirection.asc =
      [["b.com", "50"], ["c.com", "abc"], ["a.com", "-"]] := by
  decide

/-- Claim C2, code bug: applying a search while a sort is active does not
leave the rows ordered by the active sort. Load the grid, click Traffic
(the ascending sort puts a.com(30) before b.com(50)), then let the
debounced query "com" (matching both rows) fire: the debounced callback
rebuilds rows from originalRows alone, so the working rows revert to the
original order b.com, a.com even though sortConfig still records the
active ascending Traffic sort; filtering then sorting, as the spec's
pipeline prescribes, would give a.com, b.com. -/
theorem C2_code_bug :
    (applyDebouncedSearch
          (handleSort (initTable [["Domain", "Traffic"], ["b.com", "50"], ["a.com", "30"]]) 1)
          "com").sortConfig = some ⟨1, SortDirection.asc⟩ ∧
    (applyDebouncedSearch
          (handleSort (initTable [["Domain", "Traffic"], ["b.com", "50"], ["a.com", "30"]]) 1)
          "com").rows = [["b.com", "50"], ["a.com", "30"]] ∧
    sortRows ["Domain", "Traffic"]
        (debouncedSearch [["b.com", "50"], ["a.com", "30"]] "com") 1 SortDirection.asc =
      [["a.com", "30"], ["b.com", "50"]] ∧
    (applyDebouncedSearch
          (handleSort (initTable [["Domain", "Traffic"], ["b.com", "50"], ["a.com", "30"]]) 1)
          "com").rows ≠
      sortRows ["Domain", "Traffic"]
        (debouncedSearch [["b.com", "50"], ["a.com", "30"]] "com") 1 SortDirection.asc := by
  decide

/-- Claim C3, counterexample: the comparator does not always return a
value in the set \x7b-1, 0, 1\x7d: on a numeric column with two parseable
cells it returns the raw difference of the parsed values, e.g.
compare("50", "30", number, asc) = 20. -/
theorem C3_counterexample :
    compareValues "50" "30" "number" SortDirection.asc = 20 ∧
      ¬(compareValues "50" "30" "number" SortDirection.asc = -1 ∨
        compareValues "50" "30" "number" SortDirection.asc = 0 ∨
        compareValues "50" "30" "number" SortDirection.asc = 1) := by
  decide

/-- Claim C3, amended: for every pair of cell strings, every column kind
and every direction, the comparator returns -1, 0 or 1 except in the
numeric-kind branch with two non-empty parseable cells, where it returns
the difference of the parsed values (negated for descending); only the
sign is meaningful to the sort. -/
theorem C3_amended (a b kind : String) (d : SortDirection) :
    (compareValues a b kind d = -1 ∨ compareValues a b kind d = 0 ∨
        compareValues a b kind d = 1) ∨
      (kind = "number" ∧ isEmptyValue a = false ∧ isEmptyValue b = false ∧
        ∃ x y, parseNumericValue a = some x ∧ parseNumericValue b = some y ∧
          compareValues a b kind d =
            (if d = SortDirection.asc then x - y else y - x)) := by
  by_cases ha : isEmptyValue a = true
  · by_cases hb : isEmptyValue b = true
    · left; simp [compareValues, ha, hb]
    · left; simp [compareValues, ha, hb]
  · rw [Bool.not_eq_true] at ha
    by_cases hb : isEmptyValue b = true
    · left; simp [compareValues, ha, hb]
    · rw [Bool.not_eq_true] at hb
      by_cases hk : kind = "number"
      · rcases hpa : parseNumericValue a with _ | x
        · left
          rcases hpb : parseNumericValue b with _ | y <;>
            simp [compareValues, ha, hb, hpa, hpb, hk]
        · rcases hpb : parseNumericValue b with _ | y
          · left; simp [compareValues, ha, hb, hpa, hpb, hk]
          · right
            refine ⟨hk, ha, hb, x, y, rfl, rfl, ?_⟩
            cases d <;> simp [compareValues, ha, hb, hpa, hpb, hk, ratSub_eq, neg_sub]
      · left
        rcases localeCompareNumericBase_mem a b with h | h | h <;> cases d <;>
          simp [compareValues, ha, hb, hk, h]

/-- Claim C4: (1) two empty cells compare equal, for both kinds and both
directions; (2)(3) an empty cell sorts after a non-empty one in both
directions — the result is not negated by direction; (4) for two
non-empty cells, both parseable when the kind is numeric, reversing the
direction negates the comparison; (5) consequently, sorting a numeric
column whose cells are all non-empty and parseable descending yields
exactly the reverse sequence of parsed values of the ascending sort; and
(6) in every numeric-column sort, rows with empty or unparseable cells
come after every row with a parseable value, in both directions. -/
theorem C4_comparator_algebra :
    (∀ (a b kind : String) (d : SortDirection),
        isEmptyValue a = true → isEmptyValue b = true → compareValues a b kind d = 0) ∧
    (∀ (a b kind : String) (d : SortDirection),
        isEmptyValue a = true → isEmptyValue b = false → compareValues a b kind d = 1) ∧
    (∀ (a b kind : String) (d : SortDirection),
        isEmptyValue a = false → isEmptyValue b = true → compareValues a b kind d = -1) ∧
    (∀ (a b kind : String),
        isEmptyValue a = false → isEmptyValue b = false →
        (kind = "number" → parseNumericValue a ≠ none ∧ parseNumericValue b ≠ none) →
        compareValues a b kind SortDirection.desc = -compareValues a b kind SortDirection.asc) ∧
    (∀ (headers : List String) (rows : List (List String)) (c : ℕ),
        (columnConfigType (headers.getD c "")).getD "string" = "number" →
        (∀ r ∈ rows, numRank (r.getD c "") = 0) →
        (sortRows headers rows c SortDirection.desc).map
            (fun r => parseNumericValue (r.getD c "")) =
          ((sortRows headers rows c SortDirection.asc).map
              (fun r => parseNumericValue (r.getD c ""))).reverse) ∧
    (∀ (headers : List String) (rows : List (List String)) (c : ℕ) (d : SortDirection),
        (columnConfigType (headers.getD c "")).getD "string" = "number" →
        (sortRows headers rows c d).Pairwise
          (fun r s => 1 ≤ numRank (r.getD c "") → 1 ≤ numRank (s.getD c ""))) := by
  refine ⟨?_, ?_, ?_, ?_, ?_, ?_⟩
  · intro a b kind d ha hb
    simp [compareValues, ha, hb]
  · intro a b kind d ha hb
    simp [compareValues, ha, hb]
  · intro a b kind d ha hb
    simp [compareValues, ha, hb]
  · intro a b kind ha hb hp
    by_cases hk : kind = "number"
    · obtain ⟨hpa', hpb'⟩ := hp hk
      rcases hpa : parseNumericValue a with _ | x
      · exact absurd hpa hpa'
      · rcases hpb : parseNumericValue b with _ | y
        · exact absurd hpb hpb'
        · simp [compareValues, ha, hb, hk, hpa, hpb]
    · simp [compareValues, ha, hb, hk]
  · intro headers rows c hnum hg
    exact sortRows_number_map_parse_reverse headers rows c hnum hg
  · intro headers rows c d hnum
    exact sortRows_number_empties_last headers rows c d hnum

/-- Claim C4, witness: the comparator facts and the value-reversal fact
instantiated on concrete cells and a concrete numeric column. -/
theorem C4_witness :
    compareValues "" "-" "number" SortDirection.asc = 0 ∧
    compareValues "-" "50" "string" SortDirection.desc = 1 ∧
    (sortRows ["Traffic"] [["5"], ["30"]] 0 SortDirection.desc).map
        (fun r => parseNumericValue (r.getD 0 "")) =
      ((sortRows ["Traffic"] [["5"], ["30"]] 0 SortDirection.asc).map
          (fun r => parseNumericValue (r.getD 0 ""))).reverse :=
  ⟨C4_comparator_algebra.1 "" "-" "number" SortDirection.asc (by decide) (by decide),
   C4_comparator_algebra.2.1 "-" "50" "string" SortDirection.desc (by decide) (by decide),
   C4_comparator_algebra.2.2.2.2.1 ["Traffic"] [["5"], ["30"]] 0 (by decide) (by decide)⟩

/-- Claim C5: a query that trims to empty leaves the working rows exactly
as they were; any other query returns exactly the subsequence of rows
whose column-0 cell, lower-cased, contains the lower-cased query — so the
result is a sublist of the input (order preserved), never longer, and
every returned row matches. -/
theorem C5_filter (rows : List (List String)) (q : String) :
    (debouncedSearch rows q).Sublist rows ∧
    (debouncedSearch rows q).length ≤ rows.length ∧
    (jsTrimList q.data = [] → debouncedSearch rows q = rows) ∧
    (jsTrimList q.data ≠ [] →
      debouncedSearch rows q =
        rows.filter (fun row => strIncludes (toLowerStr (row.getD 0 "")) (toLowerStr q)) ∧
      ∀ r ∈ debouncedSearch rows q,
        strIncludes (toLowerStr (r.getD 0 "")) (toLowerStr q) = true) := by
  have hs : (debouncedSearch rows q).Sublist rows := by
    rw [debouncedSearch]
    split_ifs with h
    · exact List.Sublist.refl rows
    · exact List.filter_sublist rows
  refine ⟨hs, hs.length_le, ?_, ?_⟩
  · intro h
    simp [debouncedSearch, h]
  · intro h
    refine ⟨by simp [debouncedSearch, h], ?_⟩
    intro r hr
    rw [debouncedSearch, if_neg h] at hr
    exact (List.mem_filter.mp hr).2

/-- Claim C5, witness: the whitespace query is the identity and the query
"A." case-insensitively selects exactly a.com. -/
theorem C5_witness :
    debouncedSearch [["b.com", "50"], ["a.com", "30"]] "  " =
        [["b.com", "50"], ["a.com", "30"]] ∧
    debouncedSearch [["b.com", "50"], ["a.com", "30"]] "A." =
      [["b.com", "50"], ["a.com", "30"]].filter
        (fun row => strIncludes (toLowerStr (row.getD 0 "")) (toLowerStr "A.")) :=
  ⟨(C5_filter [["b.com", "50"], ["a.com", "30"]] "  ").2.2.1 (by decide),
   ((C5_filter [["b.com", "50"], ["a.com", "30"]] "A.").2.2.2 (by decide)).1⟩

/-- Claim C6: clicking a header always leaves an active sort on the
clicked column — never a cleared state: the active ascending column flips
to descending; no active sort, a different active column, or a currently
descending column all produce ascending on the clicked column. -/
theorem C6_toggle (st : TableState) (c : ℕ) :
    (∃ d, (handleSort st c).sortConfig = some ⟨c, d⟩) ∧
    (st.sortConfig = some ⟨c, SortDirection.asc⟩ →
      (handleSort st c).sortConfig = some ⟨c, SortDirection.desc⟩) ∧
    (st.sortConfig = none → (handleSort st c).sortConfig = some ⟨c, SortDirection.asc⟩) ∧
    (∀ p, st.sortConfig = some p → p.column ≠ c →
      (handleSort st c).sortConfig = some ⟨c, SortDirection.asc⟩) ∧
    (∀ p, st.sortConfig = some p → p.direction = SortDirection.desc →
      (handleSort st c).sortConfig = some ⟨c, SortDirection.asc⟩) := by
  rcases hsc : st.sortConfig with _ | ⟨pc, pd⟩
  · simp [handleSort, hsc]
  · cases pd <;> by_cases hcol : pc = c <;>
      simp_all [handleSort, hsc, hcol]

/-- Claim C6, witness: the three toggle situations on concrete states. -/
theorem C6_witness :
    (handleSort ⟨["Traffic"], [], [], some ⟨0, SortDirection.asc⟩⟩ 0).sortConfig =
        some ⟨0, SortDirection.desc⟩ ∧
    (handleSort ⟨["Traffic"], [], [], none⟩ 0).sortConfig = some ⟨0, SortDirection.asc⟩ ∧
    (handleSort ⟨["Traffic"], [], [], some ⟨1, SortDirection.asc⟩⟩ 0).sortConfig =
        some ⟨0, SortDirection.asc⟩ ∧
    (handleSort ⟨["Traffic"], [], [], some ⟨0, SortDirection.desc⟩⟩ 0).sortConfig =
        some ⟨0, SortDirection.asc⟩ :=
  ⟨(C6_toggle ⟨["Traffic"], [], [], some ⟨0, SortDirection.asc⟩⟩ 0).2.1 rfl,
   (C6_toggle ⟨["Traffic"], [], [], none⟩ 0).2.2.1 rfl,
   (C6_toggle ⟨["Traffic"], [], [], some ⟨1, SortDirection.asc⟩⟩ 0).2.2.2.1
     ⟨1, SortDirection.asc⟩ rfl (by decide),
   (C6_toggle ⟨["Traffic"], [], [], some ⟨0, SortDirection.desc⟩⟩ 0).2.2.2.2
     ⟨0, SortDirection.desc⟩ rfl rfl⟩

/-- Claim C7: isEmptyValue holds exactly for the empty string, strings of
whitespace only, and the literal sentinels "undefined", "null",
"Not Provided" and "-". -/
theorem C7_isEmpty_iff (v : String) :
    isEmptyValue v = true ↔
      (v = "" ∨ v.data.all isJsSpace = true ∨ v = "undefined" ∨ v = "null" ∨
        v = "Not Provided" ∨ v = "-") := by
  rw [isEmptyValue]
  simp only [Bool.or_eq_true, beq_iff_eq, decide_eq_true_eq, jsTrimList_eq_nil_iff,
    List.all_eq_true]
  tauto

/-- Claim C7, witness: the characterisation applied to a sentinel. -/
theorem C7_witness : isEmptyValue "Not Provided" = true :=
  (C7_isEmpty_iff "Not Provided").mpr (by tauto)

/-- Claim C8, counterexample: parseNumeric does not return NaN on every
remainder that fails to be a valid number. "1.2.3" survives stripping
unchanged and is not a valid numeral (parsing cannot consume it whole),
yet parseNumeric returns the longest-prefix value 1.2, not NaN. -/
theorem C8_counterexample :
    stripNumeric "1.2.3" = "1.2.3".data ∧
    isValidNumberLit (stripNumeric "1.2.3") = false ∧
    parseNumericValue "1.2.3" ≠ none ∧
    parseNumericValue "1.2.3" = some (mkRat 12 10) := by
  decide

/-- Claim C8, amended: parseNumeric removes every character that is not a
digit, '.', or '-', then parses the longest numeric prefix of the
remainder as a floating-point number, returning NaN (not an error)
exactly when the remainder does not begin with a number; in particular
parseNumeric("$1,234.50") = 1234.50 and parseNumeric("abc") = NaN. -/
theorem C8_amended :
    (∀ v : String, parseNumericValue v = none ↔ beginsWithNumber (stripNumeric v) = false) ∧
    parseNumericValue "$1,234.50" = some (2469 / 2 : ℚ) ∧
    parseNumericValue "abc" = none := by
  refine ⟨fun v => parseFloatQ_eq_none_iff (stripNumeric v), ?_, by decide⟩
  have h : parseNumericValue "$1,234.50" = some (mkRat 123450 100) := by decide
  rw [h, Rat.mkRat_eq_div]
  norm_num

/-- Claim C8, witness: the NaN characterisation applied to "abc". -/
theorem C8_witness : parseNumericValue "abc" = none :=
  (C8_amended.1 "abc").mpr (by decide)

/-- Claim C9: for every scroll offset the rendered row indices form a
contiguous range whose size is at most visibleCount + 2 * overscan — a
bound in which the total row count does not occur, so it is the same for
10 rows and for 100000. -/
theorem C9_window (count rowHeightPx overscan viewportPx scrollPx : ℕ) :
    (∀ i j k, i ∈ renderedIndices count rowHeightPx overscan viewportPx scrollPx →
      k ∈ renderedIndices count rowHeightPx overscan viewportPx scrollPx →
      i ≤ j → j ≤ k →
      j ∈ renderedIndices count rowHeightPx overscan viewportPx scrollPx) ∧
    (renderedIndices count rowHeightPx overscan viewportPx scrollPx).length ≤
      visibleCount rowHeightPx viewportPx scrollPx + 2 * overscan := by
  constructor
  · intro i j k hi hk hij hjk
    rw [renderedIndices, List.mem_range'_1] at hi hk ⊢
    omega
  · have hlen : (renderedIndices count rowHeightPx overscan viewportPx scrollPx).length =
        windowStop count rowHeightPx overscan viewportPx scrollPx -
          windowFirst rowHeightPx overscan scrollPx := by
      rw [renderedIndices]
      exact List.length_range' _ 1 _
    rw [hlen, windowStop, windowFirst, visibleCount]
    have hd : scrollPx / rowHeightPx ≤ (scrollPx + viewportPx) / rowHeightPx :=
      Nat.div_le_div_right (Nat.le_add_right _ _)
    omega

/-- Claim C9, witness: the window on a 100000-row list at row height 48,
viewport 600, overscan 10, scroll offset 480. -/
theorem C9_witness :
    12 ∈ renderedIndices 100000 48 10 600 480 ∧
    (renderedIndices 100000 48 10 600 480).length ≤ visibleCount 48 600 480 + 2 * 10 :=
  ⟨(C9_window 100000 48 10 600 480).1 0 12 32 (by decide) (by decide) (by decide) (by decide),
   (C9_window 100000 48 10 600 480).2⟩

/-- Claim C10: login resolves to true and authenticates exactly on the
credentials demo/demo; any other credentials resolve to false and leave
the authentication state unchanged — in particular still
unauthenticated. -/
theorem C10_login (st : Bool) (cred : AuthCredentials) :
    ((login st cred).1 = true ↔ (cred.username = "demo" ∧ cred.password = "demo")) ∧
    (cred.username = "demo" ∧ cred.password = "demo" → (login st cred).2 = true) ∧
    (¬(cred.username = "demo" ∧ cred.password = "demo") → (login st cred).2 = st) ∧
    (st = false →
      ((login st cred).2 = true ↔ (cred.username = "demo" ∧ cred.password = "demo"))) := by
  by_cases h1 : cred.username = "demo"
  · by_cases h2 : cred.password = "demo"
    · simp [login, h1, h2]
    · simp [login, h1, h2]
  · simp [login, h1]

/-- Claim C10, witness: demo/demo authenticates, demo/wrong resolves
false and leaves an unauthenticated state unauthenticated. -/
theorem C10_witness :
    (login false ⟨"demo", "demo"⟩).1 = true ∧
    (login false ⟨"demo", "demo"⟩).2 = true ∧
    (login false ⟨"demo", "wrong"⟩).2 = false :=
  ⟨(C10_login false ⟨"demo", "demo"⟩).1.mpr ⟨rfl, rfl⟩,
   (C10_login false ⟨"demo", "demo"⟩).2.1 ⟨rfl, rfl⟩,
   (C10_login false ⟨"demo", "wrong"⟩).2.2.1 (by simp)⟩
